import Mathlib

/-!
Shallow embedding of `pkg/services/ngalert/notifier/channels/util.go` (Grafana
alerting notification channel utilities) and proofs of its specification.

Conventions of the embedding:
- Go errors are the inductive `GoErr`; a Go `error` return value is
  `Option GoErr` (`none` = nil).  `errors.Is` against the sentinel errors
  `ErrImageNotFound`, `ErrImagesUnavailable`, `ErrImagesDone` is equality
  with the corresponding constructor.
- The external image store (`channels.ImageStore.GetImage`) is a function
  from a token to the Go result pair `(image, error)`.
- Logging calls are elided except in `sendHTTPRequest`, where a claim is
  about what reaches the logger; there the emitted log entries are part of
  the function's result.
- `withStoredImages` additionally records, as explicit state, the indices at
  which the store was queried and the indices at which the visitor was
  invoked; the Go function only returns the error.  The store is queried
  exactly when the alert has a non-empty image token (`getImage` line 36).
- Contexts and timeouts (`context.WithTimeout`) are real-time constructs and
  are not modelled.
-/

namespace Channels

/-- Go errors relevant to this module.  The first three are the sentinel
errors `channels.ErrImageNotFound`, `channels.ErrImagesUnavailable`,
`channels.ErrImagesDone`; `errNotExist` and `errPermission` stand for OS
errors recognised by `os.IsNotExist` / `os.IsPermission`. -/
inductive GoErr where
  | imageNotFound
  | imagesUnavailable
  | imagesDone
  | errNotExist
  | errPermission
  | other (msg : String)
  deriving DecidableEq, Repr

/-- The `channels.Image` struct (only identity matters here). -/
structure Image where
  token : String
  path : String
  url : String
  deriving DecidableEq, Repr, Inhabited

/-- The part of `types.Alert` this module reads: the annotations label set
(a key/value map with unique keys, embedded as an association list). -/
structure Alert where
  annotations : List (String × String)
  deriving DecidableEq, Repr, Inhabited

/-- Modelled from the spec: `models.ImageTokenAnnotation` (declared outside
`src/`), the one reserved annotation key that holds the opaque image token.
Its concrete value is irrelevant to every claim. -/
def imageTokenKey : String := "__alertImageToken__"

/-- Go map lookup `annotations[key]` with the `ok` flag folded into `Option`. -/
def lookupKey : List (String × String) → String → Option String
  | [], _ => none
  | (k, v) :: rest, key => if k = key then some v else lookupKey rest key

/-- `getTokenFromAnnotations` (util.go lines 99-104). -/
def getTokenFromAnnotations (annotations : List (String × String)) : String :=
  match lookupKey annotations imageTokenKey with
  | some value => value
  | none => ""

/-- The external image store: `GetImage(ctx, token)` returns a Go pair
`(image, error)`. -/
def ImageStore : Type := String → Option Image × Option GoErr

/-- `getImage` (util.go lines 34-52).  Returns the Go pair `(image, error)`:
empty token or a store error recognised as `ErrImageNotFound` /
`ErrImagesUnavailable` yields `(nil, nil)`; any other store error is
propagated; otherwise the store's image is returned. -/
def getImage (imageStore : ImageStore) (alert : Alert) : Option Image × Option GoErr :=
  let token := getTokenFromAnnotations alert.annotations
  if token = "" then (none, none)
  else
    let res := imageStore token
    if res.2 = some GoErr.imageNotFound ∨ res.2 = some GoErr.imagesUnavailable then
      (none, none)
    else
      match res.2 with
      | some e => (none, some e)
      | none => (res.1, none)

/-- The visitor type `forEachImageFunc` (util.go line 30): returns a Go error
(`none` = continue, `some ErrImagesDone` = stop, other = failure). -/
def ForEachImageFunc : Type := Nat → Image → Option GoErr

/-- The observable outcome of one `withStoredImages` run: the returned error,
plus (as explicit instrumentation state) the indices whose alert led to a
store query and the indices at which the visitor was invoked, in order. -/
structure IterTrace where
  queried : List Nat
  visited : List Nat
  result : Option GoErr
  deriving DecidableEq, Repr

/-- The loop of `withStoredImages` (util.go lines 62-77), starting at a given
index.  A store query happens inside `getImage` exactly when the alert's
token is non-empty, which is what `queried` records. -/
def withStoredImagesFrom (imageStore : ImageStore) (forEachFunc : ForEachImageFunc)
    (index : Nat) : List Alert → IterTrace
  | [] => { queried := [], visited := [], result := none }
  | alert :: rest =>
    let q : List Nat := if getTokenFromAnnotations alert.annotations = "" then [] else [index]
    match getImage imageStore alert with
    | (_, some e) => { queried := q, visited := [], result := some e }
    | (some img, none) =>
      match forEachFunc index img with
      | some e =>
        if e = GoErr.imagesDone then
          { queried := q, visited := [index], result := none }
        else
          { queried := q, visited := [index], result := some e }
      | none =>
        let t := withStoredImagesFrom imageStore forEachFunc (index + 1) rest
        { queried := q ++ t.queried, visited := index :: t.visited, result := t.result }
    | (none, none) =>
      let t := withStoredImagesFrom imageStore forEachFunc (index + 1) rest
      { queried := q ++ t.queried, visited := t.visited, result := t.result }

/-- `withStoredImages` (util.go lines 61-78): the loop started at index 0. -/
def withStoredImages (imageStore : ImageStore) (forEachFunc : ForEachImageFunc)
    (alerts : List Alert) : IterTrace :=
  withStoredImagesFrom imageStore forEachFunc 0 alerts

/-- Reference description of the visited indices: starting at `index`, the
positions whose alert resolves to an image. -/
def visitedSpecFrom (imageStore : ImageStore) : Nat → List Alert → List Nat
  | _, [] => []
  | index, alert :: rest =>
    (if ((getImage imageStore alert).1).isSome then [index] else []) ++
      visitedSpecFrom imageStore (index + 1) rest

/-- Reference description of the queried indices: starting at `index`, the
positions whose alert carries a non-empty image token. -/
def queriedSpecFrom : Nat → List Alert → List Nat
  | _, [] => []
  | index, alert :: rest =>
    (if getTokenFromAnnotations alert.annotations = "" then [] else [index]) ++
      queriedSpecFrom (index + 1) rest

/-- Every visited index lies at or after the start index, and its alert
resolved to an image. -/
theorem mem_visited_of_run (imageStore : ImageStore) (forEachFunc : ForEachImageFunc) :
    ∀ (alerts : List Alert) (k j : Nat),
      j ∈ (withStoredImagesFrom imageStore forEachFunc k alerts).visited →
      k ≤ j ∧ ∃ a, alerts[j - k]? = some a ∧ ((getImage imageStore a).1).isSome = true
  | [], k, j => by simp [withStoredImagesFrom]
  | alert :: rest, k, j => by
    intro hj
    rcases hga : getImage imageStore alert with ⟨oimg, oerr⟩
    rcases oerr with _ | e
    · rcases oimg with _ | img
      · simp only [withStoredImagesFrom, hga] at hj
        obtain ⟨hk, a, ha, hres⟩ := mem_visited_of_run imageStore forEachFunc rest (k + 1) j hj
        refine ⟨by omega, a, ?_, hres⟩
        rw [show j - k = (j - (k + 1)) + 1 by omega]
        simpa using ha
      · rcases hf : forEachFunc k img with _ | e
        · simp only [withStoredImagesFrom, hga, hf, List.mem_cons] at hj
          rcases hj with rfl | hj
          · exact ⟨le_refl j, alert, by simp, by simp [hga]⟩
          · obtain ⟨hk, a, ha, hres⟩ := mem_visited_of_run imageStore forEachFunc rest (k + 1) j hj
            refine ⟨by omega, a, ?_, hres⟩
            rw [show j - k = (j - (k + 1)) + 1 by omega]
            simpa using ha
        · by_cases he : e = GoErr.imagesDone <;>
            simp only [withStoredImagesFrom, hga, hf, he, if_true, if_false,
              List.mem_singleton] at hj <;>
            (subst hj; exact ⟨le_refl j, alert, by simp, by simp [hga]⟩)
    · simp [withStoredImagesFrom, hga] at hj

/-- Every queried index lies at or after the start index and within the list. -/
theorem mem_queried_of_run (imageStore : ImageStore) (forEachFunc : ForEachImageFunc) :
    ∀ (alerts : List Alert) (k j : Nat),
      j ∈ (withStoredImagesFrom imageStore forEachFunc k alerts).queried →
      k ≤ j ∧ j - k < alerts.length
  | [], k, j => by simp [withStoredImagesFrom]
  | alert :: rest, k, j => by
    intro hj
    have step : ∀ q : List Nat, q = [] ∨ q = [k] →
        j ∈ q ++ (withStoredImagesFrom imageStore forEachFunc (k + 1) rest).queried →
        k ≤ j ∧ j - k < rest.length + 1 := by
      rintro q (rfl | rfl) hm
      · obtain ⟨hk, hlt⟩ := mem_queried_of_run imageStore forEachFunc rest (k + 1) j hm
        exact ⟨by omega, by omega⟩
      · rcases List.mem_append.1 hm with h1 | h2
        · simp only [List.mem_singleton] at h1
          subst h1; exact ⟨le_refl j, by omega⟩
        · obtain ⟨hk, hlt⟩ := mem_queried_of_run imageStore forEachFunc rest (k + 1) j h2
          exact ⟨by omega, by omega⟩
    have hq : (if getTokenFromAnnotations alert.annotations = "" then ([] : List Nat)
        else [k]) = [] ∨
        (if getTokenFromAnnotations alert.annotations = "" then ([] : List Nat)
        else [k]) = [k] := by
      by_cases ht : getTokenFromAnnotations alert.annotations = "" <;> simp [ht]
    rcases hga : getImage imageStore alert with ⟨oimg, oerr⟩
    rcases oerr with _ | e
    · rcases oimg with _ | img
      · simp only [withStoredImagesFrom, hga, List.length_cons] at hj ⊢
        exact step _ hq hj
      · rcases hf : forEachFunc k img with _ | e
        · simp only [withStoredImagesFrom, hga, hf, List.length_cons] at hj ⊢
          exact step _ hq hj
        · by_cases he : e = GoErr.imagesDone <;>
            simp only [withStoredImagesFrom, hga, hf, he, if_true, if_false] at hj <;>
            (rcases hq with hq | hq <;> rw [hq] at hj <;> simp at hj) <;>
            (subst hj; exact ⟨le_refl j, by simp⟩)
    · simp only [withStoredImagesFrom, hga] at hj
      rcases hq with hq | hq <;> rw [hq] at hj <;> simp at hj
      subst hj; exact ⟨le_refl j, by simp⟩

/-- Visitor invocations happen in strictly increasing index order. -/
theorem visited_pairwise_of_run (imageStore : ImageStore) (forEachFunc : ForEachImageFunc) :
    ∀ (alerts : List Alert) (k : Nat),
      ((withStoredImagesFrom imageStore forEachFunc k alerts).visited).Pairwise (· < ·)
  | [], k => by simp [withStoredImagesFrom]
  | alert :: rest, k => by
    rcases hga : getImage imageStore alert with ⟨oimg, oerr⟩
    rcases oerr with _ | e
    · rcases oimg with _ | img
      · simp only [withStoredImagesFrom, hga]
        exact visited_pairwise_of_run imageStore forEachFunc rest (k + 1)
      · rcases hf : forEachFunc k img with _ | e
        · simp only [withStoredImagesFrom, hga, hf]
          refine List.pairwise_cons.2 ⟨?_, visited_pairwise_of_run imageStore forEachFunc rest (k + 1)⟩
          intro j hj
          have := (mem_visited_of_run imageStore forEachFunc rest (k + 1) j hj).1
          omega
        · by_cases he : e = GoErr.imagesDone <;>
            simp [withStoredImagesFrom, hga, hf, he]
    · simp [withStoredImagesFrom, hga]

/-- Store queries happen in strictly increasing index order. -/
theorem queried_pairwise_of_run (imageStore : ImageStore) (forEachFunc : ForEachImageFunc) :
    ∀ (alerts : List Alert) (k : Nat),
      ((withStoredImagesFrom imageStore forEachFunc k alerts).queried).Pairwise (· < ·)
  | [], k => by simp [withStoredImagesFrom]
  | alert :: rest, k => by
    have hqq : ∀ q : List Nat, q = [] ∨ q = [k] →
        (q ++ (withStoredImagesFrom imageStore forEachFunc (k + 1) rest).queried).Pairwise
          (· < ·) := by
      rintro q (rfl | rfl)
      · simpa using queried_pairwise_of_run imageStore forEachFunc rest (k + 1)
      · simp only [List.singleton_append]
        refine List.pairwise_cons.2 ⟨?_, queried_pairwise_of_run imageStore forEachFunc rest (k + 1)⟩
        intro j hj
        have := (mem_queried_of_run imageStore forEachFunc rest (k + 1) j hj).1
        omega
    have hq : (if getTokenFromAnnotations alert.annotations = "" then ([] : List Nat)
        else [k]) = [] ∨
        (if getTokenFromAnnotations alert.annotations = "" then ([] : List Nat)
        else [k]) = [k] := by
      by_cases ht : getTokenFromAnnotations alert.annotations = "" <;> simp [ht]
    rcases hga : getImage imageStore alert with ⟨oimg, oerr⟩
    rcases oerr with _ | e
    · rcases oimg with _ | img
      · simp only [withStoredImagesFrom, hga]
        exact hqq _ hq
      · rcases hf : forEachFunc k img with _ | e
        · simp only [withStoredImagesFrom, hga, hf]
          exact hqq _ hq
        · by_cases he : e = GoErr.imagesDone <;>
            simp only [withStoredImagesFrom, hga, hf, he, if_true, if_false] <;>
            (rcases hq with hq | hq <;> rw [hq] <;> simp)
    · simp only [withStoredImagesFrom, hga]
      rcases hq with hq | hq <;> rw [hq] <;> simp

/-- At most one visitor invocation per alert. -/
theorem visited_length_le_of_run (imageStore : ImageStore) (forEachFunc : ForEachImageFunc) :
    ∀ (alerts : List Alert) (k : Nat),
      ((withStoredImagesFrom imageStore forEachFunc k alerts).visited).length ≤ alerts.length
  | [], k => by simp [withStoredImagesFrom]
  | alert :: rest, k => by
    rcases hga : getImage imageStore alert with ⟨oimg, oerr⟩
    rcases oerr with _ | e
    · rcases oimg with _ | img
      · simp only [withStoredImagesFrom, hga, List.length_cons]
        have := visited_length_le_of_run imageStore forEachFunc rest (k + 1)
        omega
      · rcases hf : forEachFunc k img with _ | e
        · simp only [withStoredImagesFrom, hga, hf, List.length_cons]
          have := visited_length_le_of_run imageStore forEachFunc rest (k + 1)
          omega
        · by_cases he : e = GoErr.imagesDone <;>
            simp [withStoredImagesFrom, hga, hf, he]
    · simp [withStoredImagesFrom, hga]

/-- At most one store query per alert. -/
theorem queried_length_le_of_run (imageStore : ImageStore) (forEachFunc : ForEachImageFunc) :
    ∀ (alerts : List Alert) (k : Nat),
      ((withStoredImagesFrom imageStore forEachFunc k alerts).queried).length ≤ alerts.length
  | [], k => by simp [withStoredImagesFrom]
  | alert :: rest, k => by
    have hq : (if getTokenFromAnnotations alert.annotations = "" then ([] : List Nat)
        else [k]).length ≤ 1 := by
      by_cases ht : getTokenFromAnnotations alert.annotations = "" <;> simp [ht]
    rcases hga : getImage imageStore alert with ⟨oimg, oerr⟩
    rcases oerr with _ | e
    · rcases oimg with _ | img
      · simp only [withStoredImagesFrom, hga, List.length_append, List.length_cons]
        have := queried_length_le_of_run imageStore forEachFunc rest (k + 1)
        omega
      · rcases hf : forEachFunc k img with _ | e
        · simp only [withStoredImagesFrom, hga, hf, List.length_append, List.length_cons]
          have := queried_length_le_of_run imageStore forEachFunc rest (k + 1)
          omega
        · by_cases he : e = GoErr.imagesDone <;>
            simp only [withStoredImagesFrom, hga, hf, he, if_true, if_false,
              List.length_cons] <;> omega
    · simp only [withStoredImagesFrom, hga, List.length_cons]
      omega

/-- Elements of `visitedSpecFrom` lie in the index window of the list. -/
theorem mem_visitedSpecFrom (imageStore : ImageStore) :
    ∀ (l : List Alert) (k j : Nat), j ∈ visitedSpecFrom imageStore k l →
      k ≤ j ∧ j < k + l.length
  | [], k, j => by simp [visitedSpecFrom]
  | alert :: rest, k, j => by
    intro hj
    simp only [visitedSpecFrom, List.mem_append] at hj
    rcases hj with hj | hj
    · by_cases hs : ((getImage imageStore alert).1).isSome = true <;> simp [hs] at hj
      subst hj; simp
    · obtain ⟨hk, hlt⟩ := mem_visitedSpecFrom imageStore rest (k + 1) j hj
      constructor <;> [omega; (simp only [List.length_cons]; omega)]

/-- `getImage` propagates a store error that is not one of the two recognised
absence errors. -/
theorem getImage_propagates (imageStore : ImageStore) (alert : Alert) (e : GoErr)
    (htok : getTokenFromAnnotations alert.annotations ≠ "")
    (hstore : (imageStore (getTokenFromAnnotations alert.annotations)).2 = some e)
    (hnf : e ≠ GoErr.imageNotFound) (hun : e ≠ GoErr.imagesUnavailable) :
    getImage imageStore alert = (none, some e) := by
  simp [getImage, htok, hstore, hnf, hun]

/-- If a clean run (no resolution error, visitor always continues) reaches
relative index `i` where the visitor answers `ErrImagesDone`, the loop stops
there with no error, having queried exactly the tokened indices and visited
exactly the resolvable indices up to and including `i`. -/
theorem run_stops_at_done (imageStore : ImageStore) (forEachFunc : ForEachImageFunc) :
    ∀ (alerts : List Alert) (i k : Nat) (ai : Alert) (img : Image),
      (∀ j a, j < i → alerts[j]? = some a → (getImage imageStore a).2 = none) →
      (∀ j a im, j < i → alerts[j]? = some a → (getImage imageStore a).1 = some im →
        forEachFunc (k + j) im = none) →
      alerts[i]? = some ai →
      getImage imageStore ai = (some img, none) →
      forEachFunc (k + i) img = some GoErr.imagesDone →
      withStoredImagesFrom imageStore forEachFunc k alerts =
        { queried := queriedSpecFrom k (alerts.take (i + 1)),
          visited := visitedSpecFrom imageStore k (alerts.take (i + 1)),
          result := none }
  | [], i, k, ai, img => by intro _ _ hi _ _; simp at hi
  | alert :: rest, 0, k, ai, img => by
    intro _ _ hi hres hstop
    simp only [List.getElem?_cons_zero, Option.some_inj] at hi
    subst hi
    have hstop' : forEachFunc k img = some GoErr.imagesDone := by simpa using hstop
    simp [withStoredImagesFrom, hres, hstop', queriedSpecFrom, visitedSpecFrom]
  | alert :: rest, i + 1, k, ai, img => by
    intro herr hvf hi hres hstop
    have h0 : (getImage imageStore alert).2 = none :=
      herr 0 alert (by omega) (by simp)
    have ht : withStoredImagesFrom imageStore forEachFunc (k + 1) rest =
        { queried := queriedSpecFrom (k + 1) (rest.take (i + 1)),
          visited := visitedSpecFrom imageStore (k + 1) (rest.take (i + 1)),
          result := none } := by
      refine run_stops_at_done imageStore forEachFunc rest i (k + 1) ai img ?_ ?_ ?_ hres ?_
      · intro j a hji hja
        exact herr (j + 1) a (by omega) (by simpa using hja)
      · intro j a im hji hja him
        have := hvf (j + 1) a im (by omega) (by simpa using hja) him
        rw [show k + 1 + j = k + (j + 1) by omega]
        exact this
      · simpa using hi
      · rw [show k + 1 + i = k + (i + 1) by omega]
        exact hstop
    rcases hfst : (getImage imageStore alert).1 with _ | im
    · have hga : getImage imageStore alert = (none, none) := by
        rw [← hfst, ← h0]
      simp only [withStoredImagesFrom, hga, ht, List.take_succ_cons,
        queriedSpecFrom, visitedSpecFrom, hfst]
      simp [hga]
    · have hga : getImage imageStore alert = (some im, none) := by
        rw [← hfst, ← h0]
      have hcont : forEachFunc k im = none := by
        have := hvf 0 alert im (by omega) (by simp) (by rw [hga])
        simpa using this
      simp only [withStoredImagesFrom, hga, hcont, ht, List.take_succ_cons,
        queriedSpecFrom, visitedSpecFrom, hfst]
      simp

/-- If a clean run reaches relative index `i` where resolution fails, the loop
stops there returning that error, having visited exactly the resolvable
indices strictly before `i` and queried the tokened indices up to `i`. -/
theorem run_stops_at_error (imageStore : ImageStore) (forEachFunc : ForEachImageFunc) :
    ∀ (alerts : List Alert) (i k : Nat) (ai : Alert) (e : GoErr),
      (∀ j a, j < i → alerts[j]? = some a → (getImage imageStore a).2 = none) →
      (∀ j a im, j < i → alerts[j]? = some a → (getImage imageStore a).1 = some im →
        forEachFunc (k + j) im = none) →
      alerts[i]? = some ai →
      (getImage imageStore ai).2 = some e →
      withStoredImagesFrom imageStore forEachFunc k alerts =
        { queried := queriedSpecFrom k (alerts.take (i + 1)),
          visited := visitedSpecFrom imageStore k (alerts.take i),
          result := some e }
  | [], i, k, ai, e => by intro _ _ hi _; simp at hi
  | alert :: rest, 0, k, ai, e => by
    intro _ _ hi hfail
    simp only [List.getElem?_cons_zero, Option.some_inj] at hi
    subst hi
    rcases hfst : (getImage imageStore alert).1 with _ | im
    · have hga : getImage imageStore alert = (none, some e) := by rw [← hfst, ← hfail]
      simp [withStoredImagesFrom, hga, queriedSpecFrom, visitedSpecFrom]
    · have hga : getImage imageStore alert = (some im, some e) := by rw [← hfst, ← hfail]
      simp [withStoredImagesFrom, hga, queriedSpecFrom, visitedSpecFrom]
  | alert :: rest, i + 1, k, ai, e => by
    intro herr hvf hi hfail
    have h0 : (getImage imageStore alert).2 = none :=
      herr 0 alert (by omega) (by simp)
    have ht : withStoredImagesFrom imageStore forEachFunc (k + 1) rest =
        { queried := queriedSpecFrom (k + 1) (rest.take (i + 1)),
          visited := visitedSpecFrom imageStore (k + 1) (rest.take i),
          result := some e } := by
      refine run_stops_at_error imageStore forEachFunc rest i (k + 1) ai e ?_ ?_ ?_ hfail
      · intro j a hji hja
        exact herr (j + 1) a (by omega) (by simpa using hja)
      · intro j a im hji hja him
        have := hvf (j + 1) a im (by omega) (by simpa using hja) him
        rw [show k + 1 + j = k + (j + 1) by omega]
        exact this
      · simpa using hi
    rcases hfst : (getImage imageStore alert).1 with _ | im
    · have hga : getImage imageStore alert = (none, none) := by
        rw [← hfst, ← h0]
      simp only [withStoredImagesFrom, hga, ht, List.take_succ_cons,
        queriedSpecFrom, visitedSpecFrom, hfst]
      simp [hga]
    · have hga : getImage imageStore alert = (some im, none) := by
        rw [← hfst, ← h0]
      have hcont : forEachFunc k im = none := by
        have := hvf 0 alert im (by omega) (by simp) (by rw [hga])
        simpa using this
      simp only [withStoredImagesFrom, hga, hcont, ht, List.take_succ_cons,
        queriedSpecFrom, visitedSpecFrom, hfst]
      simp

/-! Concrete instances used by the witnesses. -/

def exImage : Image := { token := "tok", path := "/img.png", url := "" }

def exStore : ImageStore := fun t => if t = "tok" then (some exImage, none) else (none, none)

def exFailStore : ImageStore :=
  fun t => if t = "tok" then (none, some (GoErr.other "boom")) else (none, none)

def exAbsStore : ImageStore := fun _ => (none, some GoErr.imageNotFound)

def exAlertTok : Alert := { annotations := [(imageTokenKey, "tok")] }

def exAlertPlain : Alert := { annotations := [("ann1", "v")] }

def exStopF : ForEachImageFunc := fun _ _ => some GoErr.imagesDone

def exContF : ForEachImageFunc := fun _ _ => none

/-- C1: for every ordered alert list and every visitor, if the visitor returns
the distinguished stop signal (`ErrImagesDone`) at index `i` — i.e. the run
reaches index `i` with no earlier resolution error or visitor error, index `i`
resolves to an image, and the visitor answers `ErrImagesDone` there — then
`withStoredImages` invokes the visitor exactly for the image-resolving indices
`≤ i`, in input order, and returns no error. -/
theorem claim_C1 (imageStore : ImageStore) (forEachFunc : ForEachImageFunc)
    (alerts : List Alert) (i : Nat) (ai : Alert) (img : Image)
    (herr : ∀ j a, j < i → alerts[j]? = some a → (getImage imageStore a).2 = none)
    (hvf : ∀ j a im, j < i → alerts[j]? = some a → (getImage imageStore a).1 = some im →
      forEachFunc j im = none)
    (hi : alerts[i]? = some ai)
    (hres : getImage imageStore ai = (some img, none))
    (hstop : forEachFunc i img = some GoErr.imagesDone) :
    (withStoredImages imageStore forEachFunc alerts).result = none ∧
    (withStoredImages imageStore forEachFunc alerts).visited =
      visitedSpecFrom imageStore 0 (alerts.take (i + 1)) ∧
    (∀ j ∈ (withStoredImages imageStore forEachFunc alerts).visited, j ≤ i) ∧
    ((withStoredImages imageStore forEachFunc alerts).visited).Pairwise (· < ·) := by
  have hrun : withStoredImagesFrom imageStore forEachFunc 0 alerts =
      { queried := queriedSpecFrom 0 (alerts.take (i + 1)),
        visited := visitedSpecFrom imageStore 0 (alerts.take (i + 1)),
        result := none } := by
    refine run_stops_at_done imageStore forEachFunc alerts i 0 ai img herr ?_ hi hres ?_
    · intro j a im hji hja him
      rw [Nat.zero_add]
      exact hvf j a im hji hja him
    · rw [Nat.zero_add]; exact hstop
  refine ⟨?_, ?_, ?_, ?_⟩
  · show (withStoredImagesFrom imageStore forEachFunc 0 alerts).result = none
    rw [hrun]
  · show (withStoredImagesFrom imageStore forEachFunc 0 alerts).visited = _
    rw [hrun]
  · intro j hj
    replace hj : j ∈ (withStoredImagesFrom imageStore forEachFunc 0 alerts).visited := hj
    rw [hrun] at hj
    have hb := mem_visitedSpecFrom imageStore (alerts.take (i + 1)) 0 j hj
    have hlen : (alerts.take (i + 1)).length ≤ i + 1 := by
      simp [List.length_take]
    omega
  · exact visited_pairwise_of_run imageStore forEachFunc alerts 0

theorem claim_C1_witness :
    (withStoredImages exStore exStopF [exAlertPlain, exAlertTok]).result = none ∧
    (withStoredImages exStore exStopF [exAlertPlain, exAlertTok]).visited =
      visitedSpecFrom exStore 0 ([exAlertPlain, exAlertTok].take 2) ∧
    (∀ j ∈ (withStoredImages exStore exStopF [exAlertPlain, exAlertTok]).visited, j ≤ 1) ∧
    ((withStoredImages exStore exStopF [exAlertPlain, exAlertTok]).visited).Pairwise (· < ·) := by
  refine claim_C1 exStore exStopF [exAlertPlain, exAlertTok] 1 exAlertTok exImage ?_ ?_ ?_ ?_ ?_
  · intro j a hj ha
    have hj0 : j = 0 := by omega
    subst hj0
    simp only [List.getElem?_cons_zero, Option.some_inj] at ha
    subst ha
    decide
  · intro j a im hj ha him
    have hj0 : j = 0 := by omega
    subst hj0
    simp only [List.getElem?_cons_zero, Option.some_inj] at ha
    subst ha
    have h0 : getImage exStore exAlertPlain = (none, none) := by decide
    rw [h0] at him
    simp at him
  · decide
  · decide
  · rfl

/-- C2: if resolution for the alert at index `i` fails with a store error that
is not one of the recognised absence cases (`ErrImageNotFound`,
`ErrImagesUnavailable`), and the run reaches index `i` cleanly, then
`withStoredImages` invokes the visitor only for image-resolving indices
strictly below `i`, performs no store query after index `i`, and returns that
same error. -/
theorem claim_C2 (imageStore : ImageStore) (forEachFunc : ForEachImageFunc)
    (alerts : List Alert) (i : Nat) (ai : Alert) (e : GoErr)
    (herr : ∀ j a, j < i → alerts[j]? = some a → (getImage imageStore a).2 = none)
    (hvf : ∀ j a im, j < i → alerts[j]? = some a → (getImage imageStore a).1 = some im →
      forEachFunc j im = none)
    (hi : alerts[i]? = some ai)
    (htok : getTokenFromAnnotations ai.annotations ≠ "")
    (hstore : (imageStore (getTokenFromAnnotations ai.annotations)).2 = some e)
    (hnf : e ≠ GoErr.imageNotFound) (hun : e ≠ GoErr.imagesUnavailable) :
    (withStoredImages imageStore forEachFunc alerts).result = some e ∧
    (withStoredImages imageStore forEachFunc alerts).visited =
      visitedSpecFrom imageStore 0 (alerts.take i) ∧
    (∀ j ∈ (withStoredImages imageStore forEachFunc alerts).visited, j < i) ∧
    (withStoredImages imageStore forEachFunc alerts).queried =
      queriedSpecFrom 0 (alerts.take (i + 1)) := by
  have hfail : (getImage imageStore ai).2 = some e := by
    rw [getImage_propagates imageStore ai e htok hstore hnf hun]
  have hrun : withStoredImagesFrom imageStore forEachFunc 0 alerts =
      { queried := queriedSpecFrom 0 (alerts.take (i + 1)),
        visited := visitedSpecFrom imageStore 0 (alerts.take i),
        result := some e } := by
    refine run_stops_at_error imageStore forEachFunc alerts i 0 ai e herr ?_ hi hfail
    intro j a im hji hja him
    rw [Nat.zero_add]
    exact hvf j a im hji hja him
  refine ⟨?_, ?_, ?_, ?_⟩
  · show (withStoredImagesFrom imageStore forEachFunc 0 alerts).result = some e
    rw [hrun]
  · show (withStoredImagesFrom imageStore forEachFunc 0 alerts).visited = _
    rw [hrun]
  · intro j hj
    replace hj : j ∈ (withStoredImagesFrom imageStore forEachFunc 0 alerts).visited := hj
    rw [hrun] at hj
    have hb := mem_visitedSpecFrom imageStore (alerts.take i) 0 j hj
    have hlen : (alerts.take i).length ≤ i := by
      simp [List.length_take]
    omega
  · show (withStoredImagesFrom imageStore forEachFunc 0 alerts).queried = _
    rw [hrun]

theorem claim_C2_witness :
    (withStoredImages exFailStore exContF [exAlertPlain, exAlertTok]).result =
      some (GoErr.other "boom") ∧
    (withStoredImages exFailStore exContF [exAlertPlain, exAlertTok]).visited =
      visitedSpecFrom exFailStore 0 ([exAlertPlain, exAlertTok].take 1) ∧
    (∀ j ∈ (withStoredImages exFailStore exContF [exAlertPlain, exAlertTok]).visited, j < 1) ∧
    (withStoredImages exFailStore exContF [exAlertPlain, exAlertTok]).queried =
      queriedSpecFrom 0 ([exAlertPlain, exAlertTok].take 2) := by
  refine claim_C2 exFailStore exContF [exAlertPlain, exAlertTok] 1 exAlertTok
    (GoErr.other "boom") ?_ ?_ ?_ ?_ ?_ ?_ ?_
  · intro j a hj ha
    have hj0 : j = 0 := by omega
    subst hj0
    simp only [List.getElem?_cons_zero, Option.some_inj] at ha
    subst ha
    decide
  · intro j a im hj ha him
    have hj0 : j = 0 := by omega
    subst hj0
    simp only [List.getElem?_cons_zero, Option.some_inj] at ha
    subst ha
    have h0 : getImage exFailStore exAlertPlain = (none, none) := by decide
    rw [h0] at him
    simp at him
  · decide
  · decide
  · decide
  · decide
  · decide

/-- C4: an alert whose annotations lack the reserved image-token key resolves
to no image and no error, and the visitor is never invoked at its index. -/
theorem claim_C4 (imageStore : ImageStore) (forEachFunc : ForEachImageFunc)
    (alerts : List Alert) (j : Nat) (a : Alert)
    (hj : alerts[j]? = some a)
    (hkey : lookupKey a.annotations imageTokenKey = none) :
    getImage imageStore a = (none, none) ∧
    j ∉ (withStoredImages imageStore forEachFunc alerts).visited := by
  have htok : getTokenFromAnnotations a.annotations = "" := by
    simp [getTokenFromAnnotations, hkey]
  have hga : getImage imageStore a = (none, none) := by
    simp [getImage, htok]
  refine ⟨hga, fun hmem => ?_⟩
  obtain ⟨-, a', ha', hsome⟩ := mem_visited_of_run imageStore forEachFunc alerts 0 j hmem
  rw [Nat.sub_zero, hj, Option.some_inj] at ha'
  subst ha'
  rw [hga] at hsome
  simp at hsome

theorem claim_C4_witness :
    getImage exStore exAlertPlain = (none, none) ∧
    0 ∉ (withStoredImages exStore exContF [exAlertPlain, exAlertTok]).visited :=
  claim_C4 exStore exContF [exAlertPlain, exAlertTok] 0 exAlertPlain (by decide) (by decide)

/-- C5: for an alert whose image token is present, a store answer of
`ErrImageNotFound` or `ErrImagesUnavailable` makes `getImage` return no image
and no error: these conditions are never propagated as failures. -/
theorem claim_C5 (imageStore : ImageStore) (alert : Alert)
    (htok : getTokenFromAnnotations alert.annotations ≠ "")
    (habs : (imageStore (getTokenFromAnnotations alert.annotations)).2 =
        some GoErr.imageNotFound ∨
      (imageStore (getTokenFromAnnotations alert.annotations)).2 =
        some GoErr.imagesUnavailable) :
    getImage imageStore alert = (none, none) := by
  rcases habs with h | h <;> simp [getImage, htok, h]

theorem claim_C5_witness : getImage exAbsStore exAlertTok = (none, none) :=
  claim_C5 exAbsStore exAlertTok (by decide) (Or.inl (by decide))

/-- C9: over any alert list, `withStoredImages` performs at most one store
query per alert and at most one visitor invocation per alert, and both happen
in strictly increasing input order. -/
theorem claim_C9 (imageStore : ImageStore) (forEachFunc : ForEachImageFunc)
    (alerts : List Alert) :
    (withStoredImages imageStore forEachFunc alerts).queried.length ≤ alerts.length ∧
    (withStoredImages imageStore forEachFunc alerts).visited.length ≤ alerts.length ∧
    ((withStoredImages imageStore forEachFunc alerts).queried).Pairwise (· < ·) ∧
    ((withStoredImages imageStore forEachFunc alerts).visited).Pairwise (· < ·) :=
  ⟨queried_length_le_of_run imageStore forEachFunc alerts 0,
   visited_length_le_of_run imageStore forEachFunc alerts 0,
   queried_pairwise_of_run imageStore forEachFunc alerts 0,
   visited_pairwise_of_run imageStore forEachFunc alerts 0⟩

/-! Receiver validation error (util.go lines 106-126). -/

/-- Hexadecimal digit, used by the quoting fallback. -/
def hexDigit (n : Nat) : Char :=
  if n < 10 then Char.ofNat (48 + n) else Char.ofNat (87 + n)

/-- Go `strconv.Quote` escape of one character (the body of `%q`): quote and
backslash are backslash-escaped, printable ASCII is kept, the common control
characters use their mnemonic escapes, and anything else falls back to a
`\u` escape (modelled from Go fmt; the fallback shape is approximate and is
exercised by no claim). -/
def goQuoteChar (c : Char) : List Char :=
  if c = '"' then ['\\', '"']
  else if c = '\\' then ['\\', '\\']
  else if 0x20 ≤ c.toNat ∧ c.toNat < 0x7f then [c]
  else if c = '\n' then ['\\', 'n']
  else if c = '\t' then ['\\', 't']
  else if c = '\r' then ['\\', 'r']
  else ['\\', 'u', hexDigit (c.toNat / 4096 % 16), hexDigit (c.toNat / 256 % 16),
    hexDigit (c.toNat / 16 % 16), hexDigit (c.toNat % 16)]

/-- Go `fmt` `%q` for a string: double quotes around the escaped characters. -/
def goQuote (s : String) : String :=
  String.mk ('"' :: (s.data.map goQuoteChar).flatten ++ ['"'])

/-- Characters that `%q` passes through unchanged. -/
def plainChar (c : Char) : Prop :=
  0x20 ≤ c.toNat ∧ c.toNat < 0x7f ∧ c ≠ '"' ∧ c ≠ '\\'

instance (c : Char) : Decidable (plainChar c) := by
  unfold plainChar; infer_instance

/-- A string `%q` renders as itself surrounded by double quotes. -/
def plainString (s : String) : Prop := ∀ c ∈ s.data, plainChar c

instance (s : String) : Decidable (plainString s) := by
  unfold plainString; infer_instance

theorem goQuoteChar_plain {c : Char} (h : plainChar c) : goQuoteChar c = [c] := by
  obtain ⟨h1, h2, h3, h4⟩ := h
  simp [goQuoteChar, h1, h2, h3, h4]

theorem goQuoteList_plain : ∀ l : List Char, (∀ c ∈ l, plainChar c) →
    (l.map goQuoteChar).flatten = l
  | [], _ => by simp
  | c :: cs, h => by
    have ih := goQuoteList_plain cs (fun x hx => h x (List.mem_cons_of_mem _ hx))
    simp [goQuoteChar_plain (h c (List.mem_cons_self c cs)), ih]

theorem goQuote_plain {s : String} (h : plainString s) :
    goQuote s = "\"" ++ s ++ "\"" := by
  obtain ⟨data⟩ := s
  have hdata := goQuoteList_plain data h
  show String.mk ('"' :: (data.map goQuoteChar).flatten ++ ['"']) = _
  rw [hdata]
  rfl

/-- The message of a wrapped Go error (`err.Error()`); only identity matters. -/
def GoErr.message : GoErr → String
  | .imageNotFound => "image not found"
  | .imagesUnavailable => "images unavailable"
  | .imagesDone => "images done"
  | .errNotExist => "file does not exist"
  | .errPermission => "permission denied"
  | .other msg => msg

/-- `channels.NotificationChannelConfig`, restricted to the two fields the
error message reads. -/
structure NotificationChannelConfig where
  name : String
  type : String
  deriving DecidableEq, Repr

/-- `receiverInitError` (util.go lines 106-110). -/
structure receiverInitError where
  reason : String
  err : Option GoErr
  cfg : NotificationChannelConfig
  deriving DecidableEq, Repr

/-- `receiverInitError.Error` (util.go lines 112-124). -/
def receiverInitError.Error (e : receiverInitError) : String :=
  let name := if e.cfg.name ≠ "" then goQuote e.cfg.name ++ " " else ""
  let s := "failed to validate receiver " ++ name ++ "of type " ++ goQuote e.cfg.type ++
    ": " ++ e.reason
  match e.err with
  | some err => s ++ ": " ++ err.message
  | none => s

/-- C7: the string form of a receiver validation error is
`failed to validate receiver "<name>" of type "<type>": <reason>`, with
`: <cause>` appended exactly when a cause is present, and with the name
segment omitted exactly when the receiver name is empty.  (The `%q` verb
passes plain printable strings through unchanged, which the two
`plainString` hypotheses record.) -/
theorem claim_C7 (e : receiverInitError)
    (hn : plainString e.cfg.name) (ht : plainString e.cfg.type) :
    (e.cfg.name ≠ "" → e.err = none →
      e.Error = "failed to validate receiver \"" ++ e.cfg.name ++ "\" of type \"" ++
        e.cfg.type ++ "\": " ++ e.reason) ∧
    (e.cfg.name ≠ "" → ∀ c, e.err = some c →
      e.Error = "failed to validate receiver \"" ++ e.cfg.name ++ "\" of type \"" ++
        e.cfg.type ++ "\": " ++ e.reason ++ ": " ++ c.message) ∧
    (e.cfg.name = "" → e.err = none →
      e.Error = "failed to validate receiver of type \"" ++ e.cfg.type ++ "\": " ++
        e.reason) ∧
    (e.cfg.name = "" → ∀ c, e.err = some c →
      e.Error = "failed to validate receiver of type \"" ++ e.cfg.type ++ "\": " ++
        e.reason ++ ": " ++ c.message) := by
  have l1 : ("failed to validate receiver \"" : String) =
      "failed to validate receiver " ++ "\"" := by decide
  have l2 : ("\" of type \"" : String) = "\"" ++ " " ++ ("of type " ++ "\"") := by decide
  have l3 : ("\": " : String) = "\"" ++ ": " := by decide
  have l4 : ("failed to validate receiver of type \"" : String) =
      "failed to validate receiver " ++ "" ++ ("of type " ++ "\"") := by decide
  refine ⟨?_, ?_, ?_, ?_⟩
  · intro hne herr
    simp only [receiverInitError.Error, goQuote_plain hn, goQuote_plain ht,
      herr, l1, l2, l3, String.append_assoc]
    rw [if_pos hne]
    simp only [String.append_assoc]
  · intro hne c herr
    simp only [receiverInitError.Error, goQuote_plain hn, goQuote_plain ht,
      herr, l1, l2, l3, String.append_assoc]
    rw [if_pos hne]
    simp only [String.append_assoc]
  · intro hne herr
    simp only [receiverInitError.Error, hne, goQuote_plain ht, herr, l4, l2, l3,
      String.append_assoc, ne_eq, not_true_eq_false, if_false]
  · intro hne c herr
    simp only [receiverInitError.Error, hne, goQuote_plain ht, herr, l4, l2, l3,
      String.append_assoc, ne_eq, not_true_eq_false, if_false]

theorem claim_C7_witness :
    receiverInitError.Error
      { reason := "missing url", err := none, cfg := { name := "x", type := "y" } } =
      "failed to validate receiver \"x\" of type \"y\": missing url" := by
  have h := (claim_C7
    { reason := "missing url", err := none, cfg := { name := "x", type := "y" } }
    (by decide) (by decide)).1 (by decide) rfl
  exact h.trans (by decide)

/-! HTTP delivery primitive (util.go lines 135-195). -/

theorem string_data_append (a b : String) : (a ++ b).data = a.data ++ b.data := by
  obtain ⟨as⟩ := a
  obtain ⟨bs⟩ := b
  rfl

/-- `httpCfg` (util.go lines 135-139): body bytes and optional basic-auth
credentials (the byte slice is kept as a string). -/
structure httpCfg where
  body : String
  user : String
  password : String
  deriving DecidableEq, Repr

/-- An outgoing HTTP request as `sendHTTPRequest` builds it. -/
structure Request where
  method : String
  url : String
  headers : List (String × String)
  body : String
  deriving DecidableEq, Repr

/-- An HTTP response as seen after `netClient.Do` and `io.ReadAll`. -/
structure Response where
  statusCode : Nat
  status : String
  body : String
  deriving DecidableEq, Repr

inductive LogLevel where
  | debug
  | warn
  | error
  deriving DecidableEq, Repr

/-- One structured leveled log call with its key/value arguments. -/
structure LogEntry where
  level : LogLevel
  msg : String
  kv : List (String × String)
  deriving DecidableEq, Repr

/-- The base64 alphabet of RFC 4648, as used by Go
`encoding/base64.StdEncoding` inside `Request.SetBasicAuth`. -/
def base64Chars : List Char :=
  "ABCDEFGHIJKLMNOPQRSTUVWXYZabcdefghijklmnopqrstuvwxyz0123456789+/".data

def base64Digit (n : Nat) : Char := base64Chars.getD n '='

/-- Standard base64 of a byte sequence (each `Nat` is one byte). -/
def base64EncodeBytes : List Nat → List Char
  | [] => []
  | [b0] => [base64Digit (b0 / 4), base64Digit (b0 % 4 * 16), '=', '=']
  | [b0, b1] => [base64Digit (b0 / 4), base64Digit (b0 % 4 * 16 + b1 / 16),
      base64Digit (b1 % 16 * 4), '=']
  | b0 :: b1 :: b2 :: rest =>
    base64Digit (b0 / 4) :: base64Digit (b0 % 4 * 16 + b1 / 16) ::
      base64Digit (b1 % 16 * 4 + b2 / 64) :: base64Digit (b2 % 64) ::
      base64EncodeBytes rest

/-- `net/http.Request.SetBasicAuth`: the header value
`Basic base64(user:password)` (bytes are the code points; faithful for ASCII
credentials). -/
def basicAuthHeader (user password : String) : String :=
  "Basic " ++ String.mk (base64EncodeBytes ((user ++ ":" ++ password).data.map Char.toNat))

/-- `http.Header.Set`: replaces any existing value for the key. -/
def setHeader (headers : List (String × String)) (key value : String) :
    List (String × String) :=
  headers.filter (fun p => p.1 != key) ++ [(key, value)]

/-- The request `sendHTTPRequest` constructs (util.go lines 148-157): method
is always POST, the body comes verbatim from the config, basic auth is set
only when both credentials are non-empty, and the fixed Content-Type and
User-Agent headers are always set. -/
def buildRequest (url : String) (cfg : httpCfg) : Request :=
  let h0 : List (String × String) := []
  let h1 := if cfg.user ≠ "" ∧ cfg.password ≠ "" then
      setHeader h0 "Authorization" (basicAuthHeader cfg.user cfg.password)
    else h0
  let h2 := setHeader h1 "Content-Type" "application/json"
  let h3 := setHeader h2 "User-Agent" "Grafana"
  { method := "POST", url := url, headers := h3, body := cfg.body }

/-- Result of one `sendHTTPRequest` call: the returned `([]byte, error)` pair
plus, as instrumentation, the emitted log entries and the request sent. -/
structure SendResult where
  body : Option String
  err : Option GoErr
  logs : List LogEntry
  request : Request
  deriving DecidableEq, Repr

/-- `sendHTTPRequest` (util.go lines 143-195).  The network transport
(`netClient.Do` with its fixed TLS/proxy/timeout policy, lines 158-175) plus
`io.ReadAll` is the external function `doRequest`; a transport or read error
is returned unchanged.  The deferred response-body close (lines 176-180) only
releases a resource and is elided. -/
def sendHTTPRequest (doRequest : Request → Except GoErr Response)
    (url : String) (cfg : httpCfg) : SendResult :=
  let request := buildRequest url cfg
  match doRequest request with
  | .error e => { body := none, err := some e, logs := [], request := request }
  | .ok resp =>
    if resp.statusCode / 100 ≠ 2 then
      { body := none,
        err := some (GoErr.other
          ("failed to send HTTP request - status code " ++ toString resp.statusCode)),
        logs := [
          { level := .warn, msg := "HTTP request failed",
            kv := [("url", request.url), ("statusCode", resp.status), ("body", resp.body)] }],
        request := request }
    else
      { body := some resp.body, err := none,
        logs := [
          { level := .debug, msg := "sending HTTP request succeeded",
            kv := [("url", request.url), ("statusCode", resp.status)] }],
        request := request }

/-- C3: when `sendHTTPRequest` receives an HTTP response, a 2xx status yields
the body bytes with no error; any other status yields a nil body and an error
whose text contains the numeric status code, while the full response body
appears only in the warning log entry, never in the returned error (the error
text is the fixed status-code message, independent of the body). -/
theorem claim_C3 (doRequest : Request → Except GoErr Response) (url : String)
    (cfg : httpCfg) (resp : Response)
    (h : doRequest (buildRequest url cfg) = .ok resp) :
    (200 ≤ resp.statusCode ∧ resp.statusCode < 300 →
      (sendHTTPRequest doRequest url cfg).body = some resp.body ∧
      (sendHTTPRequest doRequest url cfg).err = none) ∧
    (¬(200 ≤ resp.statusCode ∧ resp.statusCode < 300) →
      (sendHTTPRequest doRequest url cfg).body = none ∧
      (sendHTTPRequest doRequest url cfg).err =
        some (GoErr.other ("failed to send HTTP request - status code " ++
          toString resp.statusCode)) ∧
      (toString resp.statusCode).data <:+:
        ("failed to send HTTP request - status code " ++ toString resp.statusCode).data ∧
      (sendHTTPRequest doRequest url cfg).logs =
        [
          { level := .warn, msg := "HTTP request failed",
            kv := [("url", (buildRequest url cfg).url), ("statusCode", resp.status),
              ("body", resp.body)] }]) := by
  constructor
  · intro hok
    have hcode : resp.statusCode / 100 = 2 := by omega
    refine ⟨?_, ?_⟩ <;> simp [sendHTTPRequest, h, hcode]
  · intro hbad
    have hcode : resp.statusCode / 100 ≠ 2 := by omega
    refine ⟨?_, ?_, ?_, ?_⟩
    · simp [sendHTTPRequest, h, hcode]
    · simp [sendHTTPRequest, h, hcode]
    · refine List.IsSuffix.isInfix ⟨"failed to send HTTP request - status code ".data, ?_⟩
      rw [← string_data_append]
    · simp [sendHTTPRequest, h, hcode]

def exResp500 : Response :=
  { statusCode := 500, status := "500 Internal Server Error", body := "oops" }

def exResp200 : Response := { statusCode := 200, status := "200 OK", body := "payload" }

def exHttpCfg : httpCfg := { body := "b", user := "", password := "" }

def exDo500 : Request → Except GoErr Response := fun _ => Except.ok exResp500

def exDo200 : Request → Except GoErr Response := fun _ => Except.ok exResp200

def exWarnEntry : LogEntry :=
  { level := .warn, msg := "HTTP request failed",
    kv := [("url", "http://localhost"), ("statusCode", "500 Internal Server Error"),
      ("body", "oops")] }

theorem claim_C3_witness :
    (¬(200 ≤ (500 : Nat) ∧ (500 : Nat) < 300) ∧
      (sendHTTPRequest exDo500 "http://localhost" exHttpCfg).err =
        some (GoErr.other "failed to send HTTP request - status code 500") ∧
      (sendHTTPRequest exDo500 "http://localhost" exHttpCfg).logs = [exWarnEntry]) ∧
    (200 ≤ (200 : Nat) ∧ (200 : Nat) < 300) ∧
    (sendHTTPRequest exDo200 "http://localhost" exHttpCfg).body = some "payload" := by
  constructor
  · have h := claim_C3 exDo500 "http://localhost" exHttpCfg exResp500 rfl
    obtain ⟨-, h2⟩ := h
    obtain ⟨-, herr, -, hlog⟩ := h2 (by decide)
    exact ⟨by omega, herr.trans (by decide), hlog.trans (by decide)⟩
  · have h := claim_C3 exDo200 "http://localhost" exHttpCfg exResp200 rfl
    exact ⟨by omega, (h.1 (by decide)).1⟩

/-- C6: the request built by `sendHTTPRequest` carries an Authorization header
with HTTP Basic credentials for the configured pair exactly when both
username and password are non-empty; if either is empty, no Authorization
header is set at all. -/
theorem claim_C6 (doRequest : Request → Except GoErr Response) (url : String)
    (cfg : httpCfg) :
    (sendHTTPRequest doRequest url cfg).request = buildRequest url cfg ∧
    ((lookupKey (buildRequest url cfg).headers "Authorization").isSome ↔
      (cfg.user ≠ "" ∧ cfg.password ≠ "")) ∧
    (cfg.user ≠ "" → cfg.password ≠ "" →
      lookupKey (buildRequest url cfg).headers "Authorization" =
        some (basicAuthHeader cfg.user cfg.password)) := by
  refine ⟨?_, ?_, ?_⟩
  · cases hdo : doRequest (buildRequest url cfg) with
    | error e => simp [sendHTTPRequest, hdo]
    | ok resp =>
      by_cases hc : resp.statusCode / 100 ≠ 2 <;> simp [sendHTTPRequest, hdo, hc]
  · by_cases hu : cfg.user = "" <;> by_cases hp : cfg.password = "" <;>
      simp [buildRequest, setHeader, lookupKey, hu, hp]
  · intro hu hp
    simp [buildRequest, setHeader, lookupKey, hu, hp]

def exCfgBoth : httpCfg := { body := "b", user := "u", password := "p" }

def exCfgHalf : httpCfg := { body := "b", user := "u", password := "" }

def exDoErr : Request → Except GoErr Response := fun _ => Except.error (GoErr.other "eek")

theorem claim_C6_witness :
    ((lookupKey (buildRequest "http://localhost" exCfgBoth).headers
        "Authorization").isSome ↔
      (exCfgBoth.user ≠ "" ∧ exCfgBoth.password ≠ "")) ∧
    lookupKey (buildRequest "http://localhost" exCfgBoth).headers "Authorization" =
      some (basicAuthHeader "u" "p") ∧
    ((lookupKey (buildRequest "http://localhost" exCfgHalf).headers
        "Authorization").isSome ↔
      (exCfgHalf.user ≠ "" ∧ exCfgHalf.password ≠ "")) :=
  ⟨(claim_C6 exDoErr "http://localhost" exCfgBoth).2.1,
    (claim_C6 exDoErr "http://localhost" exCfgBoth).2.2 (by decide) (by decide),
    (claim_C6 exDoErr "http://localhost" exCfgHalf).2.1⟩

/-! URL path join helper (util.go lines 197-207) with its stdlib models. -/

/-- Split at every slash (Go `strings.Split(s, "/")` as used inside
`path.Clean`'s segment walk, modelled over character lists). -/
def splitSlash : List Char → List (List Char)
  | [] => [[]]
  | c :: rest =>
    if c = '/' then [] :: splitSlash rest
    else
      match splitSlash rest with
      | s :: ss => (c :: s) :: ss
      | [] => [[c]]

/-- The segment stack of Go `path.Clean`: empty and `.` segments are dropped,
`..` pops a pushed segment (kept at the head of a relative path, dropped at
the root of a rooted one), anything else is pushed.  `acc` holds the output
segments in reverse. -/
def cleanSegs (rooted : Bool) : List (List Char) → List (List Char) → List (List Char)
  | acc, [] => acc.reverse
  | acc, seg :: rest =>
    if seg = [] ∨ seg = ['.'] then cleanSegs rooted acc rest
    else if seg = ['.', '.'] then
      match acc with
      | top :: accRest =>
        if top = ['.', '.'] then cleanSegs rooted (seg :: top :: accRest) rest
        else cleanSegs rooted accRest rest
      | [] => if rooted then cleanSegs rooted [] rest else cleanSegs rooted [seg] rest
    else cleanSegs rooted (seg :: acc) rest

/-- Re-join segments with single slashes. -/
def joinSlash : List (List Char) → List Char
  | [] => []
  | [s] => s
  | s :: ss => s ++ '/' :: joinSlash ss

/-- Go `path.Clean` (functional rendering of the stdlib lazybuf loop,
modelled): empty input gives `.`, a rooted path keeps its leading slash and
an empty cleaned remainder collapses to `/` resp. `.`. -/
def pathCleanL (p : List Char) : List Char :=
  if p = [] then ['.']
  else if p.head? = some '/' then
    '/' :: joinSlash (cleanSegs true [] (splitSlash p))
  else
    let out := joinSlash (cleanSegs false [] (splitSlash p))
    if out = [] then ['.'] else out

def pathClean (p : String) : String := String.mk (pathCleanL p.data)

/-- Go `path.Join(a, b)` (modelled from the stdlib): skip leading empty
elements, join the rest with a slash and `Clean` it; all-empty input gives
the empty string. -/
def pathJoin (a b : String) : String :=
  if a ≠ "" then pathClean (String.mk (a.data ++ '/' :: b.data))
  else if b ≠ "" then pathClean b
  else ""

/-- The subset of Go `net/url.URL` that `joinUrlPath` touches. -/
structure URL where
  scheme : String
  host : String
  path : String
  deriving DecidableEq, Repr

inductive SchemeSplit where
  | noScheme
  | schemeSplit (scheme rest : List Char)
  | errMissing
  deriving DecidableEq, Repr

/-- Go `net/url.getScheme` (modelled): scan for a valid `scheme:` prefix;
a leading `:` is the `missing protocol scheme` parse error; a non-scheme
character means the whole input is path-only. -/
def getSchemeAux : List Char → List Char → SchemeSplit
  | _, [] => .noScheme
  | acc, c :: rest =>
    if c.isAlpha then getSchemeAux (c :: acc) rest
    else if c = ':' then
      if acc = [] then .errMissing else .schemeSplit acc.reverse rest
    else if (c.isDigit ∨ c = '+' ∨ c = '-' ∨ c = '.') ∧ acc ≠ [] then
      getSchemeAux (c :: acc) rest
    else .noScheme

/-- ASCII control characters, which Go `net/url.Parse` rejects. -/
def isCtlChar (c : Char) : Bool := c.toNat < 0x20 || c.toNat == 0x7f

/-- Go `net/url.Parse` (modelled subset): fails on control characters and on
a missing protocol scheme; splits `scheme://host/path` and rooted or
relative path-only forms.  An absolute URL whose remainder is neither an
`//authority` nor rooted (Go's opaque form), userinfo, port validation,
query, fragment and percent-escapes are outside the modelled subset
(`joinUrlPath` is only applied to plain `http(s)://host/path` bases in this
repository); the subset reports them as parse failures. -/
def urlParse (s : String) : Option URL :=
  if s.data.any isCtlChar then none
  else
    match getSchemeAux [] s.data with
    | .errMissing => none
    | .noScheme =>
      match s.data with
      | '/' :: '/' :: tail =>
        some
          { scheme := "", host := String.mk (tail.takeWhile (fun c => c ≠ '/')),
            path := String.mk (tail.dropWhile (fun c => c ≠ '/')) }
      | l => some { scheme := "", host := "", path := String.mk l }
    | .schemeSplit scheme rest =>
      match rest with
      | '/' :: '/' :: tail =>
        some
          { scheme := String.mk (scheme.map Char.toLower),
            host := String.mk (tail.takeWhile (fun c => c ≠ '/')),
            path := String.mk (tail.dropWhile (fun c => c ≠ '/')) }
      | '/' :: tail =>
        some
          { scheme := String.mk (scheme.map Char.toLower), host := "",
            path := String.mk ('/' :: tail) }
      | [] => some { scheme := String.mk (scheme.map Char.toLower), host := "", path := "" }
      | _ => none

/-- Go `url.URL.String` (modelled for the subset above): `scheme:`, then
`//host` when a host is present, then the path, a slash being inserted when
a host is present and the path does not already start with one. -/
def urlString (u : URL) : String :=
  (if u.scheme ≠ "" then u.scheme ++ ":" else "") ++
    (if u.host ≠ "" then "//" ++ u.host else "") ++
    (if u.path ≠ "" ∧ u.path.data.head? ≠ some '/' ∧ u.host ≠ "" then "/" else "") ++
    u.path

/-- `joinUrlPath` (util.go lines 197-207): parse the base, return it
unmodified on failure (the debug log is elided), otherwise join the path
segments and reconstruct. -/
def joinUrlPath (base additionalPath : String) : String :=
  match urlParse base with
  | none => base
  | some u => urlString { u with path := pathJoin u.path additionalPath }

/-- Two consecutive slashes somewhere in the character list. -/
def hasDoubleSlash : List Char → Bool
  | [] => false
  | [_] => false
  | a :: b :: rest => (a == '/' && b == '/') || hasDoubleSlash (b :: rest)

/-- A well-formed output segment: non-empty and slash-free. -/
def goodSeg (s : List Char) : Prop := s ≠ [] ∧ '/' ∉ s

theorem splitSlash_ne_nil : ∀ l : List Char, splitSlash l ≠ []
  | [] => by simp [splitSlash]
  | c :: rest => by
    by_cases hc : c = '/'
    · simp [splitSlash, hc]
    · simp only [splitSlash, if_neg hc]
      rcases hs : splitSlash rest with _ | ⟨s, ss⟩
      · exact absurd hs (splitSlash_ne_nil rest)
      · simp

theorem splitSlash_noSlash : ∀ (l : List Char) (s : List Char),
    s ∈ splitSlash l → '/' ∉ s
  | [], s => by
    intro hs
    simp only [splitSlash, List.mem_singleton] at hs
    subst hs
    simp
  | c :: rest, s => by
    intro hs
    by_cases hc : c = '/'
    · simp only [splitSlash, if_pos hc, List.mem_cons] at hs
      rcases hs with rfl | hs
      · simp
      · exact splitSlash_noSlash rest s hs
    · simp only [splitSlash, if_neg hc] at hs
      rcases hsp : splitSlash rest with _ | ⟨s0, ss⟩
      · exact absurd hsp (splitSlash_ne_nil rest)
      · rw [hsp] at hs
        simp only [List.mem_cons] at hs
        rcases hs with rfl | hs
        · intro hmem
          rcases List.mem_cons.1 hmem with h | hm
          · exact hc h.symm
          · exact splitSlash_noSlash rest s0
              (by rw [hsp]; exact List.mem_cons_self s0 ss) hm
        · exact splitSlash_noSlash rest s (by rw [hsp]; exact List.mem_cons_of_mem _ hs)

theorem cleanSegs_good (rooted : Bool) : ∀ (l acc : List (List Char)),
    (∀ s ∈ acc, goodSeg s) → (∀ s ∈ l, '/' ∉ s) →
    ∀ s ∈ cleanSegs rooted acc l, goodSeg s
  | [], acc => by
    intro hacc _ s hs
    simp only [cleanSegs, List.mem_reverse] at hs
    exact hacc s hs
  | seg :: rest, acc => by
    intro hacc hl s
    have hrest : ∀ t ∈ rest, '/' ∉ t := fun t ht => hl t (List.mem_cons_of_mem _ ht)
    by_cases h1 : seg = [] ∨ seg = ['.']
    · simp only [cleanSegs, if_pos h1]
      exact cleanSegs_good rooted rest acc hacc hrest s
    · by_cases h2 : seg = ['.', '.']
      · subst h2
        simp only [cleanSegs, if_neg h1, if_pos rfl]
        rcases acc with _ | ⟨top, accRest⟩
        · cases rooted
          · simp only [Bool.false_eq_true, if_false]
            refine cleanSegs_good false rest [['.', '.']] ?_ hrest s
            intro t ht
            simp only [List.mem_singleton] at ht
            subst ht
            exact ⟨by simp, by simp⟩
          · simp only [if_true]
            exact cleanSegs_good true rest [] (by simp) hrest s
        · by_cases htop : top = ['.', '.']
          · simp only [if_pos htop]
            refine cleanSegs_good rooted rest (['.', '.'] :: top :: accRest) ?_ hrest s
            intro t ht
            rcases List.mem_cons.1 ht with rfl | hm
            · exact ⟨by simp, by simp⟩
            · exact hacc t hm
          · simp only [if_neg htop]
            exact cleanSegs_good rooted rest accRest
              (fun t ht => hacc t (List.mem_cons_of_mem _ ht)) hrest s
      · simp only [cleanSegs, if_neg h1, if_neg h2]
        refine cleanSegs_good rooted rest (seg :: acc) ?_ hrest s
        intro t ht
        rcases List.mem_cons.1 ht with rfl | hm
        · refine ⟨?_, hl t (List.mem_cons_self t rest)⟩
          intro hnil
          exact h1 (Or.inl hnil)
        · exact hacc t hm

theorem hds_of_noSlash : ∀ l : List Char, '/' ∉ l → hasDoubleSlash l = false
  | [] => fun _ => rfl
  | [_] => fun _ => rfl
  | a :: b :: rest => by
    intro h
    have ha : a ≠ '/' := fun hh => h (by rw [hh]; exact List.mem_cons_self _ _)
    have hb := hds_of_noSlash (b :: rest) (fun hm => h (List.mem_cons_of_mem _ hm))
    simp [hasDoubleSlash, hb, ha]

theorem hds_slash_cons (rest : List Char) (h1 : hasDoubleSlash rest = false)
    (h2 : rest.head? ≠ some '/') : hasDoubleSlash ('/' :: rest) = false := by
  cases rest with
  | nil => rfl
  | cons r rs =>
    have hr : r ≠ '/' := by
      intro hh
      exact h2 (by simp [hh])
    simp [hasDoubleSlash, h1, hr]

theorem hds_append_slash : ∀ (s rest : List Char), '/' ∉ s →
    hasDoubleSlash rest = false → rest.head? ≠ some '/' →
    hasDoubleSlash (s ++ '/' :: rest) = false
  | [], rest => fun _ h1 h2 => by simpa using hds_slash_cons rest h1 h2
  | [c], rest => fun hs h1 h2 => by
    have hc : c ≠ '/' := fun hh => hs (by simp [hh])
    have hrec := hds_slash_cons rest h1 h2
    simp [hasDoubleSlash, hrec, hc]
  | c :: c' :: s', rest => fun hs h1 h2 => by
    have hc : c ≠ '/' := fun hh => hs (by simp [hh])
    have ih := hds_append_slash (c' :: s') rest
      (fun hm => hs (List.mem_cons_of_mem _ hm)) h1 h2
    simp only [List.cons_append] at ih ⊢
    simp [hasDoubleSlash, ih, hc]

theorem joinSlash_head_ok : ∀ ss : List (List Char), (∀ s ∈ ss, goodSeg s) →
    (joinSlash ss).head? ≠ some '/'
  | [] => by intro _; simp [joinSlash]
  | [s] => by
    intro h
    obtain ⟨hne, hns⟩ := h s (List.mem_singleton.2 rfl)
    rcases s with _ | ⟨c, s'⟩
    · exact absurd rfl hne
    · have hc : c ≠ '/' := fun hh => hns (by simp [hh])
      simp [joinSlash, hc]
  | s :: t :: ss => by
    intro h
    obtain ⟨hne, hns⟩ := h s (List.mem_cons_self _ _)
    rcases s with _ | ⟨c, s'⟩
    · exact absurd rfl hne
    · have hc : c ≠ '/' := fun hh => hns (by simp [hh])
      simp [joinSlash, hc]

theorem joinSlash_hds : ∀ ss : List (List Char), (∀ s ∈ ss, goodSeg s) →
    hasDoubleSlash (joinSlash ss) = false
  | [] => fun _ => rfl
  | [s] => fun h => hds_of_noSlash s (h s (List.mem_singleton.2 rfl)).2
  | s :: t :: ss => fun h => by
    have hrest : ∀ u ∈ t :: ss, goodSeg u := fun u hu => h u (List.mem_cons_of_mem _ hu)
    have hres := hds_append_slash s (joinSlash (t :: ss))
      (h s (List.mem_cons_self _ _)).2 (joinSlash_hds (t :: ss) hrest)
      (joinSlash_head_ok (t :: ss) hrest)
    simpa [joinSlash] using hres

/-- The output of `path.Clean` never contains two consecutive slashes. -/
theorem pathCleanL_hds (p : List Char) : hasDoubleSlash (pathCleanL p) = false := by
  by_cases hp : p = []
  · subst hp; rfl
  · by_cases hro : p.head? = some '/'
    · have hgood := cleanSegs_good true (splitSlash p) [] (by simp) (splitSlash_noSlash p)
      have heq : pathCleanL p = '/' :: joinSlash (cleanSegs true [] (splitSlash p)) := by
        simp [pathCleanL, hp, hro]
      rw [heq]
      exact hds_slash_cons _ (joinSlash_hds _ hgood) (joinSlash_head_ok _ hgood)
    · have hgood := cleanSegs_good false (splitSlash p) [] (by simp) (splitSlash_noSlash p)
      have heq : pathCleanL p =
          if joinSlash (cleanSegs false [] (splitSlash p)) = [] then ['.']
          else joinSlash (cleanSegs false [] (splitSlash p)) := by
        simp [pathCleanL, hp, hro]
      rw [heq]
      by_cases ho : joinSlash (cleanSegs false [] (splitSlash p)) = []
      · rw [if_pos ho]; rfl
      · rw [if_neg ho]
        exact joinSlash_hds _ hgood

/-- The path produced by `path.Join` never contains a doubled separator. -/
theorem pathJoin_hds (a b : String) : hasDoubleSlash (pathJoin a b).data = false := by
  by_cases ha : a = ""
  · by_cases hb : b = ""
    · subst ha; subst hb; decide
    · have heq : pathJoin a b = pathClean b := by simp [pathJoin, ha, hb]
      rw [heq]
      exact pathCleanL_hds b.data
  · have heq : pathJoin a b = pathClean (String.mk (a.data ++ '/' :: b.data)) := by
      simp [pathJoin, ha]
    rw [heq]
    exact pathCleanL_hds _

/-- C8: if the base fails to parse as a URL, `joinUrlPath` returns it
unmodified; otherwise it appends the additional segment with
segment-aware joining — on the base `http://localhost` with segment `/a/b`
this gives `http://localhost/a/b`, and for any parsed base (in particular a
slash-terminated one joined with a leading-slash segment) the joined path
never contains a doubled separator. -/
theorem claim_C8 :
    (∀ base additionalPath, urlParse base = none →
      joinUrlPath base additionalPath = base) ∧
    joinUrlPath "http://localhost" "/a/b" = "http://localhost/a/b" ∧
    (∀ base additionalPath u, urlParse base = some u →
      base.data.getLast? = some '/' → additionalPath.data.head? = some '/' →
      hasDoubleSlash (pathJoin u.path additionalPath).data = false) := by
  refine ⟨?_, ?_, ?_⟩
  · intro base additionalPath h
    simp [joinUrlPath, h]
  · decide
  · intro base additionalPath u _ _ _
    exact pathJoin_hds u.path additionalPath

theorem claim_C8_witness :
    joinUrlPath (String.mk [Char.ofNat 0]) "/x" = String.mk [Char.ofNat 0] ∧
    joinUrlPath "http://localhost" "/a/b" = "http://localhost/a/b" ∧
    hasDoubleSlash (pathJoin (URL.mk "http" "localhost" "/x/").path "/a/b").data = false :=
  ⟨claim_C8.1 (String.mk [Char.ofNat 0]) "/x" (by decide), claim_C8.2.1,
    claim_C8.2.2 "http://localhost/x/" "/a/b" (URL.mk "http" "localhost" "/x/")
      (by decide) (by decide) (by decide)⟩

/-! `openImage` (util.go lines 84-97). -/

deriving instance DecidableEq for Except

/-- The filesystem as `openImage` sees it: `os.Stat` (only the error part is
read) and `os.Open` (a numeric handle stands for the `*os.File`). -/
structure FileSystem where
  stat : String → Option GoErr
  openFile : String → Except GoErr Nat

/-- `os.IsNotExist` on an optional error. -/
def osIsNotExist (e : Option GoErr) : Bool := e == some GoErr.errNotExist

/-- `os.IsPermission` on an optional error. -/
def osIsPermission (e : Option GoErr) : Bool := e == some GoErr.errPermission

/-- `openImage` (util.go lines 84-97): clean the path (`filepath.Clean`,
which coincides with `path.Clean` on Unix separators), stat it, map a
not-exist or permission stat error to `ErrImageNotFound`, otherwise open the
file and return the handle, or the open error unchanged. -/
def openImage (fs : FileSystem) (path : String) : Except GoErr Nat :=
  let fp := pathClean path
  let statErr := fs.stat fp
  if osIsNotExist statErr || osIsPermission statErr then
    Except.error GoErr.imageNotFound
  else
    match fs.openFile fp with
    | Except.error e => Except.error e
    | Except.ok f => Except.ok f

/-- C10: `openImage` returns the distinguished `ErrImageNotFound` (not the
raw filesystem error) when the cleaned path fails the initial stat check
with not-exist or permission-denied; it returns the open handle with no
error when the file exists and opens; and any other open failure is
returned as-is. -/
theorem claim_C10 (fs : FileSystem) (p : String) :
    (fs.stat (pathClean p) = some GoErr.errNotExist ∨
        fs.stat (pathClean p) = some GoErr.errPermission →
      openImage fs p = Except.error GoErr.imageNotFound) ∧
    (fs.stat (pathClean p) = none →
      ∀ f, fs.openFile (pathClean p) = Except.ok f → openImage fs p = Except.ok f) ∧
    (fs.stat (pathClean p) = none →
      ∀ e, fs.openFile (pathClean p) = Except.error e →
        openImage fs p = Except.error e) := by
  refine ⟨?_, ?_, ?_⟩
  · intro h
    rcases h with h | h <;> simp [openImage, osIsNotExist, osIsPermission, h]
  · intro h f hf
    simp [openImage, osIsNotExist, osIsPermission, h, hf]
  · intro h e he
    simp [openImage, osIsNotExist, osIsPermission, h, he]

def exFs : FileSystem :=
  { stat := fun s => if s = "/img.png" then none else some GoErr.errNotExist,
    openFile := fun s =>
      if s = "/img.png" then Except.ok 7 else Except.error (GoErr.other "no handle") }

def exFsLocked : FileSystem :=
  { stat := fun _ => none, openFile := fun _ => Except.error (GoErr.other "locked") }

theorem claim_C10_witness :
    openImage exFs "/missing.png" = Except.error GoErr.imageNotFound ∧
    openImage exFs "//img.png" = Except.ok 7 ∧
    openImage exFsLocked "/img.png" = Except.error (GoErr.other "locked") :=
  ⟨(claim_C10 exFs "/missing.png").1 (Or.inl (by decide)),
    (claim_C10 exFs "//img.png").2.1 (by decide) 7 (by decide),
    (claim_C10 exFsLocked "/img.png").2.2 (by decide) (GoErr.other "locked") (by decide)⟩

end Channels
